import Mathlib

/-!
Verification of the Adafruit seesaw I2C driver
(`src/libraries/Adafruit_Seesaw/Adafruit_seesaw.cpp`).

The driver talks to a remote co-processor over a two-wire bus.  We embed the
driver shallowly: each operation is a pure Lean function from its inputs (and
the byte stream the transport would deliver) to the list of bus transactions it
performs and the values it computes.  Machine integers are modelled as `Nat`
with explicit `% 2^w` at every narrowing conversion the C code performs.
-/

/-- One observable interaction with the two-wire bus transport, as produced by
the `Wire` primitives used in the source: a complete write transaction
(`beginTransmission`, the listed bytes, `endTransmission`), a read request
(`requestFrom` for `count` bytes), or a blocking delay. -/
inductive BusEvent where
  | write (addr : Nat) (bytes : List Nat)
  | read (addr : Nat) (count : Nat)
  | delayMicros (us : Nat)
  | delayMillis (ms : Nat)
  deriving DecidableEq, Repr

/-- Modelled from the spec: register-map module-base constant for the status
module.  The numeric register-map constants live in `Adafruit_seesaw.h`, which
is not part of the sources; the claims depend only on the identity of each
constant, never on its numeric value. -/
def SEESAW_STATUS_BASE : Nat := 0x00

/-- Modelled from the spec: hardware-id function register of the status
module. -/
def SEESAW_STATUS_HW_ID : Nat := 0x01

/-- Modelled from the spec: software-reset function register of the status
module. -/
def SEESAW_STATUS_SWRST : Nat := 0x7F

/-- Modelled from the spec: GPIO module base. -/
def SEESAW_GPIO_BASE : Nat := 0x01

/-- Modelled from the spec: GPIO direction-set bulk register. -/
def SEESAW_GPIO_DIRSET_BULK : Nat := 0x02

/-- Modelled from the spec: GPIO direction-clear bulk register. -/
def SEESAW_GPIO_DIRCLR_BULK : Nat := 0x03

/-- Modelled from the spec: GPIO bulk-output-set register. -/
def SEESAW_GPIO_BULK_SET : Nat := 0x05

/-- Modelled from the spec: GPIO pull-enable-set register. -/
def SEESAW_GPIO_PULLENSET : Nat := 0x0B

/-- Modelled from the spec: ADC module base. -/
def SEESAW_ADC_BASE : Nat := 0x09

/-- Modelled from the spec: ADC channel-offset function register; channel `p`
is read at function `SEESAW_ADC_CHANNEL_OFFSET + p`. -/
def SEESAW_ADC_CHANNEL_OFFSET : Nat := 0x07

/-- Modelled from the spec: timer (PWM) module base. -/
def SEESAW_TIMER_BASE : Nat := 0x08

/-- Modelled from the spec: PWM duty-cycle function register. -/
def SEESAW_TIMER_PWM : Nat := 0x01

/-- Modelled from the spec: serial (sercom) module base; sercom `i` lives at
module `SEESAW_SERCOM0_BASE + i`. -/
def SEESAW_SERCOM0_BASE : Nat := 0x02

/-- Modelled from the spec: sercom interrupt-enable function register. -/
def SEESAW_SERCOM_INTEN : Nat := 0x02

/-- Modelled from the spec: sercom data function register. -/
def SEESAW_SERCOM_DATA : Nat := 0x05

namespace Adafruit_seesaw

/-- The inner `for(int i=0; i<read_now; i++){ buf[pos] = Wire.read(); pos++; }`
loop of `Adafruit_seesaw::read`: stores `cnt` consecutive delivered bytes into
the caller's buffer starting at index `pos`.  `stream k` is the `k`-th byte the
transport delivers over the whole call; storing into the `uint8_t` buffer
truncates to a byte. -/
def chunkFill (stream : Nat → Nat) (buf : Nat → Nat) (pos : Nat) : Nat → (Nat → Nat)
  | 0 => buf
  | cnt + 1 => chunkFill stream (Function.update buf pos (stream pos % 256)) (pos + 1) cnt

/-- The `while(pos < num)` loop of `Adafruit_seesaw::read`: per iteration it
arms the register pointer with an address-only write transaction, waits `dly`
microseconds, requests `read_now = min(32, num - pos)` bytes in one read
transaction and stores them at `buf[pos..]`.  Returns the emitted bus events
and the final buffer. -/
def readGo (addr rH rL dly : Nat) (stream : Nat → Nat) (num pos : Nat)
    (buf : Nat → Nat) : List BusEvent × (Nat → Nat) :=
  if h : pos < num then
    let readNow := min 32 (num - pos)
    let step := readGo addr rH rL dly stream num (pos + readNow)
      (chunkFill stream buf pos readNow)
    (BusEvent.write addr [rH % 256, rL % 256] :: BusEvent.delayMicros dly ::
      BusEvent.read addr readNow :: step.1, step.2)
  else
    ([], buf)
termination_by num - pos
decreasing_by
  have h1 : 1 ≤ min 32 (num - pos) := by omega
  omega

/-- `Adafruit_seesaw::read(regHigh, regLow, buf, num, delay)`. -/
def read (addr rH rL : Nat) (stream : Nat → Nat) (buf : Nat → Nat)
    (num dly : Nat) : List BusEvent × (Nat → Nat) :=
  readGo addr rH rL dly stream num 0 buf

/-- `Adafruit_seesaw::write(regHigh, regLow, buf, num)`: a single write
transaction carrying the two address bytes followed by the payload. -/
def write (addr rH rL : Nat) (payload : List Nat) : List BusEvent :=
  [BusEvent.write addr ([rH % 256, rL % 256] ++ payload.map (· % 256))]

/-- `Adafruit_seesaw::write8(regHigh, regLow, value)`. -/
def write8 (addr rH rL value : Nat) : List BusEvent :=
  write addr rH rL [value]

/-- `Adafruit_seesaw::read8(regHigh, regLow)`: reads one byte (with the default
zero post-address delay) and returns it together with the bus events. -/
def read8 (addr rH rL : Nat) (stream : Nat → Nat) : List BusEvent × Nat :=
  let r := read addr rH rL stream (fun _ => 0) 1 0
  (r.1, r.2 0)

end Adafruit_seesaw

/-- The sizes of the read transactions in an event trace, in order. -/
def readTxSizes (evs : List BusEvent) : List Nat :=
  evs.filterMap (fun e => match e with | BusEvent.read _ n => some n | _ => none)

namespace Adafruit_seesaw

theorem chunkFill_apply (stream : Nat → Nat) (cnt : Nat) :
    ∀ (buf : Nat → Nat) (pos j : Nat),
      chunkFill stream buf pos cnt j =
        if pos ≤ j ∧ j < pos + cnt then stream j % 256 else buf j := by
  induction cnt with
  | zero =>
    intro buf pos j
    rw [chunkFill, if_neg (by omega)]
  | succ n ih =>
    intro buf pos j
    rw [chunkFill, ih]
    simp only [Function.update_apply]
    split_ifs <;> first | rfl | omega | (subst_vars; rfl)

theorem readGo_stop (addr rH rL dly : Nat) (stream : Nat → Nat) (num pos : Nat)
    (buf : Nat → Nat) (hp : ¬ pos < num) :
    readGo addr rH rL dly stream num pos buf = ([], buf) := by
  rw [readGo, dif_neg hp]

theorem readGo_spec (addr rH rL dly : Nat) (stream : Nat → Nat) (num : Nat) :
    ∀ (k pos : Nat) (buf : Nat → Nat), num - pos ≤ k →
      (∀ c ∈ readTxSizes (readGo addr rH rL dly stream num pos buf).1,
          0 < c ∧ c ≤ 32) ∧
      (readTxSizes (readGo addr rH rL dly stream num pos buf).1).sum = num - pos ∧
      ∀ j, (readGo addr rH rL dly stream num pos buf).2 j =
        if pos ≤ j ∧ j < num then stream j % 256 else buf j := by
  intro k
  induction k with
  | zero =>
    intro pos buf hk
    have hp : ¬ pos < num := by omega
    rw [readGo_stop addr rH rL dly stream num pos buf hp]
    refine ⟨?_, ?_, ?_⟩
    · intro c hc
      simp [readTxSizes] at hc
    · simp [readTxSizes]
      omega
    · intro j
      rw [if_neg (by omega)]
  | succ k ih =>
    intro pos buf hk
    by_cases hp : pos < num
    · have hmin1 : 1 ≤ min 32 (num - pos) := by omega
      have hmin32 : min 32 (num - pos) ≤ 32 := by omega
      have hkk : num - (pos + min 32 (num - pos)) ≤ k := by omega
      obtain ⟨ihA, ihB, ihC⟩ :=
        ih (pos + min 32 (num - pos)) (chunkFill stream buf pos (min 32 (num - pos))) hkk
      rw [readGo, dif_pos hp]
      refine ⟨?_, ?_, ?_⟩
      · intro c hc
        simp only [readTxSizes, List.filterMap_cons] at hc ihA
        rcases List.mem_cons.mp hc with h | h
        · subst h; exact ⟨hmin1, hmin32⟩
        · exact ihA c h
      · simp only [readTxSizes, List.filterMap_cons] at ihB ⊢
        simp only [List.sum_cons, ihB]
        omega
      · intro j
        rw [ihC j, chunkFill_apply]
        split_ifs <;> first | rfl | omega
    · rw [readGo_stop addr rH rL dly stream num pos buf hp]
      refine ⟨?_, ?_, ?_⟩
      · intro c hc
        simp [readTxSizes] at hc
      · simp [readTxSizes]
        omega
      · intro j
        rw [if_neg (by omega)]

end Adafruit_seesaw

namespace Adafruit_seesaw

theorem read_chunks_40 (addr rH rL dly : Nat) (stream buf : Nat → Nat) :
    readTxSizes (read addr rH rL stream buf 40 dly).1 = [32, 8] := by
  rw [read]
  rw [readGo, dif_pos (by omega : (0 : Nat) < 40)]
  norm_num
  rw [readGo, dif_pos (by omega : (32 : Nat) < 40)]
  norm_num
  rw [readGo_stop _ _ _ _ _ _ _ _ (by omega : ¬ (40 : Nat) < 40)]
  simp [readTxSizes]

end Adafruit_seesaw

/-- C1: for every requested byte count `num` (a `uint8_t`, so at most 255), the
register read collects the bytes in read transactions of at most 32 bytes each,
whose sizes sum to `num`; the caller's buffer ends up holding, in order, the
bytes delivered by the transport; and requesting 40 bytes yields exactly the
two read transactions `[32, 8]`. -/
theorem c1_read_chunking (addr rH rL dly num : Nat) (stream buf : Nat → Nat)
    (hnum : num ≤ 255) :
    (∀ c ∈ readTxSizes (Adafruit_seesaw.read addr rH rL stream buf num dly).1,
        0 < c ∧ c ≤ 32) ∧
    (readTxSizes (Adafruit_seesaw.read addr rH rL stream buf num dly).1).sum = num ∧
    (∀ i, i < num →
      (Adafruit_seesaw.read addr rH rL stream buf num dly).2 i = stream i % 256) ∧
    (num = 40 →
      readTxSizes (Adafruit_seesaw.read addr rH rL stream buf num dly).1 = [32, 8]) := by
  obtain ⟨hA, hB, hC⟩ :=
    Adafruit_seesaw.readGo_spec addr rH rL dly stream num num 0 buf (by omega)
  refine ⟨hA, by simpa using hB, ?_, ?_⟩
  · intro i hi
    rw [Adafruit_seesaw.read] at *
    rw [hC i, if_pos ⟨Nat.zero_le i, hi⟩]
  · intro h40
    subst h40
    exact Adafruit_seesaw.read_chunks_40 addr rH rL dly stream buf

theorem c1_read_chunking_witness :
    (40 : Nat) ≤ 255 ∧
      readTxSizes (Adafruit_seesaw.read 0 9 7 (fun k => k) (fun _ => 0) 40 0).1 =
        [32, 8] :=
  ⟨by norm_num,
    (c1_read_chunking 0 9 7 0 40 (fun k => k) (fun _ => 0) (by norm_num)).2.2.2 rfl⟩

/-- C10: invoking the register read with a requested byte count of 0 issues no
bus event at all (no address-arming write, no read request, not even a delay)
and returns the caller's buffer unchanged. -/
theorem c10_read_zero_noop (addr rH rL dly : Nat) (stream buf : Nat → Nat) :
    Adafruit_seesaw.read addr rH rL stream buf 0 dly = ([], buf) := by
  rw [Adafruit_seesaw.read]
  exact Adafruit_seesaw.readGo_stop addr rH rL dly stream 0 0 buf (by omega)

namespace Adafruit_seesaw

/-- The reassembly loop of `Adafruit_seesaw::analogReadBulk`, exactly as the
source writes it: `buf[i] = ((uint16_t)rawbuf[i * 2] << 8) | buf[i * 2 + 1];`
— the low byte is taken from the caller's 16-bit buffer `buf` (an aliasing
slip), not from `rawbuf`.  `buf` models the caller's `uint16_t` array; the
assignment truncates to 16 bits. -/
def analogReadBulkLoop (rawbuf : Nat → Nat) (buf : Nat → Nat) (i : Nat) :
    Nat → (Nat → Nat)
  | 0 => buf
  | cnt + 1 =>
      analogReadBulkLoop rawbuf
        (Function.update buf i
          (((rawbuf (i * 2) % 256) <<< 8 ||| buf (i * 2 + 1)) % 65536))
        (i + 1) cnt

/-- `Adafruit_seesaw::analogReadBulk(buf, num)`: reads `num * 2` bytes (the
count passes through the `uint8_t` parameter of `read`, hence `% 256`) from
the ADC channel-offset register with no post-address delay, then runs the
reassembly loop for `i = 0 .. num-1`.  `rawInit` models the uninitialised
stack buffer `rawbuf`; `buf` is the caller's `uint16_t` buffer. -/
def analogReadBulk (addr : Nat) (stream : Nat → Nat) (rawInit buf : Nat → Nat)
    (num : Nat) : List BusEvent × (Nat → Nat) :=
  let r := read addr SEESAW_ADC_BASE SEESAW_ADC_CHANNEL_OFFSET stream rawInit
    (num * 2 % 256) 0
  (r.1, analogReadBulkLoop r.2 buf 0 num)

end Adafruit_seesaw

/-- C2 (code bug): with `num = 1`, transport bytes `0x12, 0x34` and a caller
buffer whose entry 1 initially holds `0x00FF`, the reassembly loop stores
`0x12FF` into `buffer[0]` — the low byte comes from the caller's `uint16_t`
buffer at index `i*2+1` instead of the raw received byte `0x34` — whereas the
claimed big-endian reassembly of the received pair is `0x1234`. -/
theorem c2_analog_read_bulk_bug :
    (Adafruit_seesaw.analogReadBulk 0
        (fun k => if k = 0 then 0x12 else 0x34) (fun _ => 0)
        (fun i => if i = 1 then 0xFF else 0) 1).2 0 = 0x12FF ∧
      (0x12FF : Nat) ≠ 0x1234 := by
  constructor
  · have hbuf := (Adafruit_seesaw.readGo_spec 0 SEESAW_ADC_BASE
      SEESAW_ADC_CHANNEL_OFFSET 0 (fun k => if k = 0 then 0x12 else 0x34) 2 2 0
      (fun _ => 0) (by omega)).2.2
    simp only [Adafruit_seesaw.analogReadBulk, Adafruit_seesaw.read]
    norm_num
    simp only [Adafruit_seesaw.analogReadBulkLoop]
    rw [Function.update_same]
    rw [hbuf 0, if_pos (by omega)]
    decide
  · norm_num

/-- Bytes OR-ed below a shifted value recombine additively: the big-endian
reassembly `(hi << 8) | lo` equals `hi * 256 + lo` when `lo` is a byte. -/
theorem lor_byte_eq_add (b0 b1 : Nat) (h : b1 < 256) :
    b0 * 256 ||| b1 = b0 * 256 + b1 := by
  have hmod : (b0 * 256 ||| b1) % 256 = b1 := by
    have hall := Nat.and_pow_two_sub_one_eq_mod (b0 * 256 ||| b1) 8
    norm_num at hall
    rw [← hall, Nat.and_distrib_right]
    have e1 : b0 * 256 &&& 255 = 0 := by
      have e := Nat.and_pow_two_sub_one_eq_mod (b0 * 256) 8
      norm_num at e
      omega
    have e2 : b1 &&& 255 = b1 := by
      have e := Nat.and_pow_two_sub_one_eq_mod b1 8
      norm_num at e
      omega
    rw [e1, e2]
    exact Nat.zero_or b1
  have hdiv : (b0 * 256 ||| b1) / 256 = b0 := by
    have hsr : (b0 * 256 ||| b1) >>> 8 = (b0 * 256) >>> 8 ||| b1 >>> 8 := by
      apply Nat.eq_of_testBit_eq
      intro i
      simp [Nat.testBit_shiftRight, Nat.testBit_or]
    rw [Nat.shiftRight_eq_div_pow, Nat.shiftRight_eq_div_pow,
      Nat.shiftRight_eq_div_pow] at hsr
    norm_num at hsr
    rw [hsr, Nat.div_eq_of_lt h]
    exact Nat.or_zero b0
  omega

namespace Adafruit_seesaw

/-- The copy loop of `Adafruit_seesaw::write(const char *str)`: copies the
string's bytes one by one into the 32-byte stack buffer `buf` at index `len`,
with `len` counted in a `uint8_t` (incrementing wraps at 256) and no bounds
check whatsoever.  Returns the final buffer, the final `len`, and the list of
buffer indices the loop stored to, in order. -/
def writeStrLoop (buf : Nat → Nat) (len : Nat) :
    List Nat → (Nat → Nat) × Nat × List Nat
  | [] => (buf, len, [])
  | c :: rest =>
      let r := writeStrLoop (Function.update buf len (c % 256)) ((len + 1) % 256) rest
      (r.1, r.2.1, len :: r.2.2)

/-- `Adafruit_seesaw::write(const char *str)` (the serial-string write): runs
the unchecked copy loop over the string's bytes (everything before the
terminating NUL), then performs one register write of the first `len` staged
bytes to the sercom data register.  Returns the bus events, the payload byte
count `len`, and the staging-buffer indices used. -/
def writeSerialString (addr : Nat) (bufInit : Nat → Nat) (str : List Nat) :
    List BusEvent × Nat × List Nat :=
  let r := writeStrLoop bufInit 0 str
  (write addr SEESAW_SERCOM0_BASE SEESAW_SERCOM_DATA ((List.range r.2.1).map r.1),
    r.2.1, r.2.2)

theorem writeStrLoop_spec (str : List Nat) :
    ∀ (buf : Nat → Nat) (len : Nat), len + str.length ≤ 255 →
      (writeStrLoop buf len str).2.1 = len + str.length ∧
      ∀ i ∈ (writeStrLoop buf len str).2.2, len ≤ i ∧ i < len + str.length := by
  induction str with
  | nil =>
    intro buf len hlen
    refine ⟨by simp [writeStrLoop], ?_⟩
    intro i hi
    simp [writeStrLoop] at hi
  | cons c rest ih =>
    intro buf len hlen
    have hwrap : (len + 1) % 256 = len + 1 := by
      apply Nat.mod_eq_of_lt
      simp at hlen
      omega
    have hrest : (len + 1) + rest.length ≤ 255 := by
      simp at hlen
      omega
    obtain ⟨ihA, ihB⟩ := ih (Function.update buf len (c % 256)) (len + 1) hrest
    constructor
    · simp only [writeStrLoop, hwrap, ihA, List.length_cons]
      omega
    · intro i hi
      simp only [writeStrLoop, hwrap, List.mem_cons] at hi
      rcases hi with h | h
      · subst h
        simp only [List.length_cons]
        omega
      · have := ihB i h
        simp only [List.length_cons]
        omega

theorem writeStrLoop_buf_lt (str : List Nat) :
    ∀ (buf : Nat → Nat) (len j : Nat), len + str.length ≤ 255 → j < len →
      (writeStrLoop buf len str).1 j = buf j := by
  induction str with
  | nil =>
    intro buf len j h hj
    rfl
  | cons c rest ih =>
    intro buf len j h hj
    simp only [List.length_cons] at h
    have hwrap : (len + 1) % 256 = len + 1 := Nat.mod_eq_of_lt (by omega)
    simp only [writeStrLoop, hwrap]
    rw [ih (Function.update buf len (c % 256)) (len + 1) j (by omega) (by omega)]
    rw [Function.update_noteq (by omega : j ≠ len)]

theorem writeStrLoop_window (str : List Nat) :
    ∀ (buf : Nat → Nat) (len : Nat), len + str.length ≤ 255 →
      (List.range' len str.length).map (writeStrLoop buf len str).1 =
        str.map (· % 256) := by
  induction str with
  | nil =>
    intro buf len h
    rfl
  | cons c rest ih =>
    intro buf len h
    simp only [List.length_cons] at h
    have hwrap : (len + 1) % 256 = len + 1 := Nat.mod_eq_of_lt (by omega)
    simp only [writeStrLoop, hwrap, List.length_cons, List.range'_succ,
      List.map_cons]
    congr 1
    · rw [writeStrLoop_buf_lt rest (Function.update buf len (c % 256)) (len + 1)
        len (by omega) (by omega)]
      exact Function.update_same len (c % 256) buf
    · exact ih (Function.update buf len (c % 256)) (len + 1) (by omega)

end Adafruit_seesaw

/-- C3 (counterexample): a 33-character string defeats the supposed 32-byte
hard limit — the serial string write stages 33 bytes (so the single write
transaction carries 2 address bytes plus 33 payload bytes) and the copy loop
stores to staging-buffer index 32, outside the 32-byte buffer `buf[32]`. -/
theorem c3_hard_limit_counterexample :
    (Adafruit_seesaw.writeSerialString 0 (fun _ => 0)
        (List.replicate 33 65)).2.1 = 33 ∧
    32 ∈ (Adafruit_seesaw.writeSerialString 0 (fun _ => 0)
        (List.replicate 33 65)).2.2 ∧
    ¬ ((Adafruit_seesaw.writeSerialString 0 (fun _ => 0)
          (List.replicate 33 65)).2.1 ≤ 32 ∧
        ∀ i ∈ (Adafruit_seesaw.writeSerialString 0 (fun _ => 0)
          (List.replicate 33 65)).2.2, i < 32) := by
  refine ⟨by decide, by decide, ?_⟩
  intro h
  have := h.1
  revert this
  decide

/-- C3 (amended): for input strings of at most 32 bytes — the caller-chunking
precondition the spec states — the serial string write performs exactly one
register write to the sercom data register whose payload is exactly the
string's bytes, stages exactly the string's length (hence at most 32 payload
bytes), and every staging-buffer index stays below 32. -/
theorem c3_serial_write_bounded (addr : Nat) (bufInit : Nat → Nat)
    (str : List Nat) (h : str.length ≤ 32) :
    (Adafruit_seesaw.writeSerialString addr bufInit str).1 =
      Adafruit_seesaw.write addr SEESAW_SERCOM0_BASE SEESAW_SERCOM_DATA
        (str.map (· % 256)) ∧
    (Adafruit_seesaw.writeSerialString addr bufInit str).2.1 = str.length ∧
    (Adafruit_seesaw.writeSerialString addr bufInit str).2.1 ≤ 32 ∧
    ∀ i ∈ (Adafruit_seesaw.writeSerialString addr bufInit str).2.2, i < 32 := by
  obtain ⟨hA, hB⟩ := Adafruit_seesaw.writeStrLoop_spec str bufInit 0 (by omega)
  have hA0 : (Adafruit_seesaw.writeStrLoop bufInit 0 str).2.1 = str.length := by
    omega
  have hW := Adafruit_seesaw.writeStrLoop_window str bufInit 0 (by omega)
  refine ⟨?_, ?_, ?_, ?_⟩
  · simp only [Adafruit_seesaw.writeSerialString, hA0]
    rw [List.range_eq_range', hW]
  · simpa [Adafruit_seesaw.writeSerialString] using hA
  · simp only [Adafruit_seesaw.writeSerialString]
    omega
  · intro i hi
    simp only [Adafruit_seesaw.writeSerialString] at hi
    have := hB i hi
    omega

theorem c3_serial_write_bounded_witness :
    (Adafruit_seesaw.writeSerialString 0 (fun _ => 0) [72, 105]).1 =
        Adafruit_seesaw.write 0 SEESAW_SERCOM0_BASE SEESAW_SERCOM_DATA
          ([72, 105].map (· % 256)) ∧
      (Adafruit_seesaw.writeSerialString 0 (fun _ => 0) [72, 105]).2.1 =
        [72, 105].length ∧
      (Adafruit_seesaw.writeSerialString 0 (fun _ => 0) [72, 105]).2.1 ≤ 32 ∧
      ∀ i ∈ (Adafruit_seesaw.writeSerialString 0 (fun _ => 0) [72, 105]).2.2,
        i < 32 :=
  c3_serial_write_bounded 0 (fun _ => 0) [72, 105] (by norm_num)

namespace Adafruit_seesaw

theorem read_small (addr rH rL dly num : Nat) (h1 : 0 < num) (h2 : num ≤ 32)
    (stream buf : Nat → Nat) :
    read addr rH rL stream buf num dly =
      ([BusEvent.write addr [rH % 256, rL % 256], BusEvent.delayMicros dly,
        BusEvent.read addr num], chunkFill stream buf 0 num) := by
  rw [read, readGo, dif_pos (by omega : 0 < num)]
  have hmin : min 32 (num - 0) = num := by omega
  simp only [hmin, Nat.zero_add]
  rw [readGo_stop _ _ _ _ _ _ _ _ (by omega : ¬ num < num)]

/-- Modelled from the spec: the four ADC-capable pin numbers
(`ADC_INPUT_0_PIN` .. `ADC_INPUT_3_PIN`) of the fixed lookup, declared in the
header that is not part of the sources.  The claims quantify over which pins
appear in the table, so the table is a parameter of the embedding. -/
structure AdcPins where
  p0 : Nat
  p1 : Nat
  p2 : Nat
  p3 : Nat

/-- The `switch(pin)` at the top of `Adafruit_seesaw::analogRead`: maps a pin
to its logical ADC channel, `none` on the `default:` branch. -/
def adcChannel (pins : AdcPins) (pin : Nat) : Option Nat :=
  if pin = pins.p0 then some 0
  else if pin = pins.p1 then some 1
  else if pin = pins.p2 then some 2
  else if pin = pins.p3 then some 3
  else none

/-- `Adafruit_seesaw::analogRead(pin)`: an unmapped pin returns 0 immediately
with no bus traffic; a mapped pin reads 2 bytes from the channel register with
a 500 µs post-address delay, reassembles them big-endian into a `uint16_t`,
and sleeps 1 ms before returning. -/
def analogRead (addr : Nat) (pins : AdcPins) (stream : Nat → Nat) (pin : Nat) :
    List BusEvent × Nat :=
  match adcChannel pins pin with
  | none => ([], 0)
  | some p =>
      let r := read addr SEESAW_ADC_BASE (SEESAW_ADC_CHANNEL_OFFSET + p) stream
        (fun _ => 0) 2 500
      (r.1 ++ [BusEvent.delayMillis 1], (r.2 0 <<< 8 ||| r.2 1) % 65536)

end Adafruit_seesaw

/-- C4 (counterexample): on a mapped pin, if the transport delivers the bytes
`0xFF, 0xFF`, `analogRead` returns 65535, which is not in the range 0–1023 —
the code never clamps the reassembled value. -/
theorem c4_range_counterexample :
    (Adafruit_seesaw.analogRead 0 ⟨2, 3, 4, 5⟩ (fun _ => 0xFF) 2).2 = 65535 ∧
      ¬ (Adafruit_seesaw.analogRead 0 ⟨2, 3, 4, 5⟩ (fun _ => 0xFF) 2).2 ≤ 1023 := by
  have hr : Adafruit_seesaw.adcChannel ⟨2, 3, 4, 5⟩ 2 = some 0 := by decide
  constructor
  · simp only [Adafruit_seesaw.analogRead, hr]
    rw [Adafruit_seesaw.read_small _ _ _ _ _ (by omega) (by omega)]
    dsimp only
    rw [Adafruit_seesaw.chunkFill_apply, Adafruit_seesaw.chunkFill_apply]
    norm_num
    decide
  · simp only [Adafruit_seesaw.analogRead, hr]
    rw [Adafruit_seesaw.read_small _ _ _ _ _ (by omega) (by omega)]
    dsimp only
    rw [Adafruit_seesaw.chunkFill_apply, Adafruit_seesaw.chunkFill_apply]
    norm_num
    decide

/-- C4 (amended): for every pin mapped to an ADC channel and every pair of
delivered bytes, `analogRead` performs an address-arming write to the channel
register, a 500 µs settle delay, one 2-byte read and a 1 ms trailing delay,
and returns the big-endian reassembly `b0 * 256 + b1`; the returned value lies
in 0–1023 whenever the delivered high byte is at most 3 (as a 10-bit ADC
guarantees), but not in general. -/
theorem c4_analog_read_mapped (addr : Nat) (pins : Adafruit_seesaw.AdcPins)
    (pin ch b0 b1 : Nat) (h : Adafruit_seesaw.adcChannel pins pin = some ch)
    (hb0 : b0 < 256) (hb1 : b1 < 256) :
    (Adafruit_seesaw.analogRead addr pins (fun k => if k = 0 then b0 else b1)
        pin).2 = b0 * 256 + b1 ∧
    (Adafruit_seesaw.analogRead addr pins (fun k => if k = 0 then b0 else b1)
        pin).1 =
      [BusEvent.write addr [SEESAW_ADC_BASE % 256,
          (SEESAW_ADC_CHANNEL_OFFSET + ch) % 256],
        BusEvent.delayMicros 500, BusEvent.read addr 2,
        BusEvent.delayMillis 1] ∧
    (b0 ≤ 3 →
      (Adafruit_seesaw.analogRead addr pins (fun k => if k = 0 then b0 else b1)
        pin).2 ≤ 1023) := by
  have hval :
      (Adafruit_seesaw.analogRead addr pins (fun k => if k = 0 then b0 else b1)
        pin).2 = b0 * 256 + b1 := by
    simp only [Adafruit_seesaw.analogRead, h]
    rw [Adafruit_seesaw.read_small _ _ _ _ _ (by omega) (by omega)]
    dsimp only
    rw [Adafruit_seesaw.chunkFill_apply, Adafruit_seesaw.chunkFill_apply]
    norm_num
    rw [Nat.mod_eq_of_lt hb0, Nat.mod_eq_of_lt hb1, Nat.shiftLeft_eq]
    norm_num
    rw [lor_byte_eq_add b0 b1 hb1]
    apply Nat.mod_eq_of_lt
    omega
  refine ⟨hval, ?_, ?_⟩
  · simp only [Adafruit_seesaw.analogRead, h]
    rw [Adafruit_seesaw.read_small _ _ _ _ _ (by omega) (by omega)]
    rfl
  · intro hb3
    rw [hval]
    omega

theorem c4_analog_read_mapped_witness :
    (Adafruit_seesaw.analogRead 7 ⟨2, 3, 4, 5⟩
        (fun k => if k = 0 then 2 else 0xFF) 3).2 = 2 * 256 + 0xFF ∧
      (Adafruit_seesaw.analogRead 7 ⟨2, 3, 4, 5⟩
        (fun k => if k = 0 then 2 else 0xFF) 3).1 =
        [BusEvent.write 7 [SEESAW_ADC_BASE % 256,
            (SEESAW_ADC_CHANNEL_OFFSET + 1) % 256],
          BusEvent.delayMicros 500, BusEvent.read 7 2,
          BusEvent.delayMillis 1] ∧
      ((2 : Nat) ≤ 3 →
        (Adafruit_seesaw.analogRead 7 ⟨2, 3, 4, 5⟩
          (fun k => if k = 0 then 2 else 0xFF) 3).2 ≤ 1023) :=
  c4_analog_read_mapped 7 ⟨2, 3, 4, 5⟩ 3 1 2 0xFF (by decide) (by norm_num)
    (by norm_num)

/-- C5: a pin that does not map to one of the four ADC channels makes
`analogRead` return 0 with no bus event at all. -/
theorem c5_analog_read_unmapped (addr : Nat) (pins : Adafruit_seesaw.AdcPins)
    (stream : Nat → Nat) (pin : Nat)
    (h : Adafruit_seesaw.adcChannel pins pin = none) :
    Adafruit_seesaw.analogRead addr pins stream pin = ([], 0) := by
  simp only [Adafruit_seesaw.analogRead, h]

theorem c5_analog_read_unmapped_witness :
    Adafruit_seesaw.analogRead 0 ⟨2, 3, 4, 5⟩ (fun _ => 0xAB) 9 = ([], 0) :=
  c5_analog_read_unmapped 0 ⟨2, 3, 4, 5⟩ (fun _ => 0xAB) 9 (by decide)

namespace Arduino

/-- Arduino's `map(value, fromLow, fromHigh, toLow, toHigh)` (an external
collaborator from the Arduino core): `long` arithmetic with C's truncating
division. -/
def map (x inMin inMax outMin outMax : Int) : Int :=
  Int.tdiv ((x - inMin) * (outMax - outMin)) (inMax - inMin) + outMin

end Arduino

namespace Adafruit_seesaw

/-- Modelled from the spec: the four PWM-capable pin numbers (`PWM_0_PIN` ..
`PWM_3_PIN`) of the fixed lookup, declared in the header that is not part of
the sources; a parameter of the embedding. -/
structure PwmPins where
  p0 : Nat
  p1 : Nat
  p2 : Nat
  p3 : Nat

/-- The `switch(pin)` of `Adafruit_seesaw::analogWrite` and `setPWMFreq`:
maps a pin to its PWM channel, `none` on the `default:` branch. -/
def pwmChannel (pins : PwmPins) (pin : Nat) : Option Nat :=
  if pin = pins.p0 then some 0
  else if pin = pins.p1 then some 1
  else if pin = pins.p2 then some 2
  else if pin = pins.p3 then some 3
  else none

/-- `Adafruit_seesaw::analogWrite(pin, value, width)`: an unmapped pin is a
silent no-op; `width == 16` writes `{channel, value >> 8, value}` to the PWM
register; any other width first rescales through Arduino
`map(value, 0, 255, 0, 65535)`, truncated to `uint16_t`. -/
def analogWrite (addr : Nat) (pins : PwmPins) (pin value width : Nat) :
    List BusEvent :=
  match pwmChannel pins pin with
  | none => []
  | some p =>
    if width = 16 then
      write addr SEESAW_TIMER_BASE SEESAW_TIMER_PWM
        [p % 256, value / 256 % 256, value % 256]
    else
      let mapped := (Arduino.map value 0 255 0 65535 % 65536).toNat
      write addr SEESAW_TIMER_BASE SEESAW_TIMER_PWM
        [p % 256, mapped / 256 % 256, mapped % 256]

/-- Modelled from the Arduino core pin-mode constants (external collaborator):
the three modes distinguished by the `switch` in `pinModeBulk`. -/
inductive PinMode where
  | output
  | input
  | inputPullup
  deriving DecidableEq

/-- The 4-byte big-endian command buffer
`{ pins >> 24, pins >> 16, pins >> 8, pins }` built by the bulk GPIO
operations, each entry cast to `uint8_t`. -/
def bulkCmd (pins : Nat) : List Nat :=
  [pins / 2 ^ 24 % 256, pins / 2 ^ 16 % 256, pins / 2 ^ 8 % 256, pins % 256]

/-- `Adafruit_seesaw::pinModeBulk(pins, mode)`: one register write for
`OUTPUT` (direction-set) and `INPUT` (direction-clear); three consecutive
register writes for `INPUT_PULLUP` (direction-clear, pull-enable-set,
bulk-set), all carrying the same 4-byte mask payload. -/
def pinModeBulk (addr pins : Nat) (mode : PinMode) : List BusEvent :=
  match mode with
  | PinMode.output =>
      write addr SEESAW_GPIO_BASE SEESAW_GPIO_DIRSET_BULK (bulkCmd pins)
  | PinMode.input =>
      write addr SEESAW_GPIO_BASE SEESAW_GPIO_DIRCLR_BULK (bulkCmd pins)
  | PinMode.inputPullup =>
      write addr SEESAW_GPIO_BASE SEESAW_GPIO_DIRCLR_BULK (bulkCmd pins) ++
      write addr SEESAW_GPIO_BASE SEESAW_GPIO_PULLENSET (bulkCmd pins) ++
      write addr SEESAW_GPIO_BASE SEESAW_GPIO_BULK_SET (bulkCmd pins)

end Adafruit_seesaw

/-- C6: on every mapped PWM pin, `analogWrite(pin, 255, 8)` — the full-scale
8-bit value, linearly rescaled — produces exactly the same wire payload as
`analogWrite(pin, 65535, 16)`. -/
theorem c6_analog_write_fullscale (addr : Nat)
    (pins : Adafruit_seesaw.PwmPins) (pin p : Nat)
    (h : Adafruit_seesaw.pwmChannel pins pin = some p) :
    Adafruit_seesaw.analogWrite addr pins pin 255 8 =
      Adafruit_seesaw.analogWrite addr pins pin 65535 16 := by
  have hm : (Arduino.map ((255 : Nat) : Int) 0 255 0 65535 % 65536).toNat =
      65535 := by
    decide
  simp only [Adafruit_seesaw.analogWrite, h, hm]
  simp

theorem c6_analog_write_fullscale_witness :
    Adafruit_seesaw.analogWrite 3 ⟨4, 5, 6, 7⟩ 4 255 8 =
      Adafruit_seesaw.analogWrite 3 ⟨4, 5, 6, 7⟩ 4 65535 16 :=
  c6_analog_write_fullscale 3 ⟨4, 5, 6, 7⟩ 4 0 (by decide)

/-- C7: for every 32-bit pin mask, `pinModeBulk(mask, INPUT_PULLUP)` issues
exactly three register writes, in order direction-clear, pull-enable-set,
bulk-output-set, each carrying the same 4-byte payload, and that payload is
the big-endian encoding of the mask (recombining it big-endian yields the mask
back). -/
theorem c7_pin_mode_bulk_pullup (addr mask : Nat) (h : mask < 2 ^ 32) :
    Adafruit_seesaw.pinModeBulk addr mask Adafruit_seesaw.PinMode.inputPullup =
      [BusEvent.write addr
          ([SEESAW_GPIO_BASE, SEESAW_GPIO_DIRCLR_BULK] ++
            Adafruit_seesaw.bulkCmd mask),
        BusEvent.write addr
          ([SEESAW_GPIO_BASE, SEESAW_GPIO_PULLENSET] ++
            Adafruit_seesaw.bulkCmd mask),
        BusEvent.write addr
          ([SEESAW_GPIO_BASE, SEESAW_GPIO_BULK_SET] ++
            Adafruit_seesaw.bulkCmd mask)] ∧
    (Adafruit_seesaw.bulkCmd mask).length = 4 ∧
    (Adafruit_seesaw.bulkCmd mask).foldl (fun a b => a * 256 + b) 0 = mask := by
  refine ⟨?_, rfl, ?_⟩
  · simp only [Adafruit_seesaw.pinModeBulk, Adafruit_seesaw.write,
      Adafruit_seesaw.bulkCmd, List.map, List.append_assoc, List.cons_append,
      List.nil_append, SEESAW_GPIO_BASE, SEESAW_GPIO_DIRCLR_BULK,
      SEESAW_GPIO_PULLENSET, SEESAW_GPIO_BULK_SET]
    norm_num [Nat.mod_mod_of_dvd]
  · simp only [Adafruit_seesaw.bulkCmd, List.foldl]
    omega

theorem c7_pin_mode_bulk_pullup_witness :
    Adafruit_seesaw.pinModeBulk 6 0xDEADBEEF
        Adafruit_seesaw.PinMode.inputPullup =
      [BusEvent.write 6
          ([SEESAW_GPIO_BASE, SEESAW_GPIO_DIRCLR_BULK] ++
            Adafruit_seesaw.bulkCmd 0xDEADBEEF),
        BusEvent.write 6
          ([SEESAW_GPIO_BASE, SEESAW_GPIO_PULLENSET] ++
            Adafruit_seesaw.bulkCmd 0xDEADBEEF),
        BusEvent.write 6
          ([SEESAW_GPIO_BASE, SEESAW_GPIO_BULK_SET] ++
            Adafruit_seesaw.bulkCmd 0xDEADBEEF)] ∧
      (Adafruit_seesaw.bulkCmd 0xDEADBEEF).length = 4 ∧
      (Adafruit_seesaw.bulkCmd 0xDEADBEEF).foldl (fun a b => a * 256 + b) 0 =
        0xDEADBEEF :=
  c7_pin_mode_bulk_pullup 6 0xDEADBEEF (by norm_num)

namespace Adafruit_seesaw

/-- `Adafruit_seesaw::SWReset()`: writes `0xFF` to the status module's
software-reset register. -/
def SWReset (addr : Nat) : List BusEvent :=
  write8 addr SEESAW_STATUS_BASE SEESAW_STATUS_SWRST 0xFF

/-- `Adafruit_seesaw::begin(addr)`: store the target address, initialise the
transport (`Wire.begin`, no bus traffic of its own), software-reset, sleep
500 ms, read the hardware-id byte, and succeed exactly when it equals the
expected constant.  `hwIdCode` stands for `SEESAW_HW_ID_CODE`, whose numeric
value lives in the header that is not part of the sources; `stream` is what
the transport delivers for the id read. -/
def begin (addr hwIdCode : Nat) (stream : Nat → Nat) : List BusEvent × Bool :=
  let r := read8 addr SEESAW_STATUS_BASE SEESAW_STATUS_HW_ID stream
  (SWReset addr ++ [BusEvent.delayMillis 500] ++ r.1, r.2 == hwIdCode)

/-- Modelled from the spec: the driver's cached sercom interrupt-enable
bitmask (`_sercom_inten`, declared in the header that is not part of the
sources).  The cache is one byte; the data-ready bit — the only bit the
driver exposes — is modelled as bit 0, and `get()` returns the whole byte. -/
def sercomIntenDataRdyBit : Nat := 0

/-- `Adafruit_seesaw::enableSercomDataRdyInterrupt(sercom)`: set the
data-ready bit in the cached mask, then write the full cached byte to the
addressed sercom's interrupt-enable register. -/
def enableSercomDataRdyInterrupt (addr cache sercom : Nat) :
    Nat × List BusEvent :=
  let c := cache ||| 2 ^ sercomIntenDataRdyBit
  (c, write8 addr (SEESAW_SERCOM0_BASE + sercom) SEESAW_SERCOM_INTEN c)

/-- `Adafruit_seesaw::disableSercomDataRdyInterrupt(sercom)`: clear the
data-ready bit in the cached mask, then write the full cached byte to the
addressed sercom's interrupt-enable register. -/
def disableSercomDataRdyInterrupt (addr cache sercom : Nat) :
    Nat × List BusEvent :=
  let c := cache &&& (255 - 2 ^ sercomIntenDataRdyBit)
  (c, write8 addr (SEESAW_SERCOM0_BASE + sercom) SEESAW_SERCOM_INTEN c)

end Adafruit_seesaw

/-- C8: `begin` first issues the software reset and the fixed 500 ms settle
delay, then reads one byte from the hardware-id status register, and returns
true exactly when that byte equals the expected hardware-id constant. -/
theorem c8_begin_identity_check (addr hwIdCode idByte : Nat)
    (hb : idByte < 256) :
    ((Adafruit_seesaw.begin addr hwIdCode (fun _ => idByte)).2 = true ↔
      idByte = hwIdCode) ∧
    (Adafruit_seesaw.begin addr hwIdCode (fun _ => idByte)).1 =
      Adafruit_seesaw.SWReset addr ++ [BusEvent.delayMillis 500] ++
        [BusEvent.write addr [SEESAW_STATUS_BASE % 256,
            SEESAW_STATUS_HW_ID % 256],
          BusEvent.delayMicros 0, BusEvent.read addr 1] := by
  constructor
  · simp only [Adafruit_seesaw.begin, Adafruit_seesaw.read8]
    rw [Adafruit_seesaw.read_small _ _ _ _ _ (by omega) (by omega)]
    dsimp only
    rw [Adafruit_seesaw.chunkFill_apply, if_pos (by omega)]
    rw [Nat.mod_eq_of_lt hb]
    exact beq_iff_eq
  · simp only [Adafruit_seesaw.begin, Adafruit_seesaw.read8]
    rw [Adafruit_seesaw.read_small _ _ _ _ _ (by omega) (by omega)]

theorem c8_begin_identity_check_witness :
    (((Adafruit_seesaw.begin 0x49 0x55 (fun _ => 0x55)).2 = true ↔
        (0x55 : Nat) = 0x55) ∧
      (Adafruit_seesaw.begin 0x49 0x55 (fun _ => 0x55)).1 =
        Adafruit_seesaw.SWReset 0x49 ++ [BusEvent.delayMillis 500] ++
          [BusEvent.write 0x49 [SEESAW_STATUS_BASE % 256,
              SEESAW_STATUS_HW_ID % 256],
            BusEvent.delayMicros 0, BusEvent.read 0x49 1]) :=
  c8_begin_identity_check 0x49 0x55 0x55 (by norm_num)

/-- C9 (spec-modelled cache): the enable operation sets exactly the data-ready
bit of the cached mask and the disable operation clears exactly that bit;
every other bit of the cache is preserved by both; and each operation performs
exactly one write of the full resulting mask byte to the addressed sercom's
interrupt-enable register. -/
theorem c9_sercom_inten_frame (addr cache sercom : Nat) (h : cache < 256) :
    Nat.testBit (Adafruit_seesaw.enableSercomDataRdyInterrupt addr cache
        sercom).1 Adafruit_seesaw.sercomIntenDataRdyBit = true ∧
    Nat.testBit (Adafruit_seesaw.disableSercomDataRdyInterrupt addr cache
        sercom).1 Adafruit_seesaw.sercomIntenDataRdyBit = false ∧
    (∀ i, i ≠ Adafruit_seesaw.sercomIntenDataRdyBit →
      Nat.testBit (Adafruit_seesaw.enableSercomDataRdyInterrupt addr cache
          sercom).1 i = Nat.testBit cache i ∧
      Nat.testBit (Adafruit_seesaw.disableSercomDataRdyInterrupt addr cache
          sercom).1 i = Nat.testBit cache i) ∧
    (Adafruit_seesaw.enableSercomDataRdyInterrupt addr cache sercom).2 =
      [BusEvent.write addr [(SEESAW_SERCOM0_BASE + sercom) % 256,
        SEESAW_SERCOM_INTEN % 256,
        (Adafruit_seesaw.enableSercomDataRdyInterrupt addr cache sercom).1
          % 256]] ∧
    (Adafruit_seesaw.disableSercomDataRdyInterrupt addr cache sercom).2 =
      [BusEvent.write addr [(SEESAW_SERCOM0_BASE + sercom) % 256,
        SEESAW_SERCOM_INTEN % 256,
        (Adafruit_seesaw.disableSercomDataRdyInterrupt addr cache sercom).1
          % 256]] := by
  refine ⟨?_, ?_, ?_, rfl, rfl⟩
  · simp [Adafruit_seesaw.enableSercomDataRdyInterrupt,
      Adafruit_seesaw.sercomIntenDataRdyBit, Nat.testBit_or]
  · simp only [Adafruit_seesaw.disableSercomDataRdyInterrupt,
      Adafruit_seesaw.sercomIntenDataRdyBit, Nat.testBit_and]
    norm_num
  · intro i hi
    simp only [Adafruit_seesaw.sercomIntenDataRdyBit] at hi
    have hrw : (255 - 2 ^ Adafruit_seesaw.sercomIntenDataRdyBit : Nat) = 254 := by
      norm_num [Adafruit_seesaw.sercomIntenDataRdyBit]
    constructor
    · simp only [Adafruit_seesaw.enableSercomDataRdyInterrupt,
        Adafruit_seesaw.sercomIntenDataRdyBit, Nat.testBit_or]
      rw [Nat.testBit_two_pow_of_ne (Ne.symm hi)]
      exact Bool.or_false _
    · simp only [Adafruit_seesaw.disableSercomDataRdyInterrupt, hrw,
        Nat.testBit_and]
      by_cases hilt : i < 8
      · have h254 : Nat.testBit 254 i = true := by
          interval_cases i <;> first | omega | decide
        rw [h254]
        exact Bool.and_true _
      · have hc : Nat.testBit cache i = false := by
          apply Nat.testBit_lt_two_pow
          calc cache < 256 := h
            _ = 2 ^ 8 := by norm_num
            _ ≤ 2 ^ i := Nat.pow_le_pow_right (by norm_num) (by omega)
        rw [hc]
        exact Bool.false_and _

theorem c9_sercom_inten_frame_witness :
    Nat.testBit (Adafruit_seesaw.enableSercomDataRdyInterrupt 0 0xAA 1).1
        Adafruit_seesaw.sercomIntenDataRdyBit = true ∧
      Nat.testBit (Adafruit_seesaw.disableSercomDataRdyInterrupt 0 0xAA 1).1
        Adafruit_seesaw.sercomIntenDataRdyBit = false ∧
      (∀ i, i ≠ Adafruit_seesaw.sercomIntenDataRdyBit →
        Nat.testBit (Adafruit_seesaw.enableSercomDataRdyInterrupt 0 0xAA 1).1
            i = Nat.testBit 0xAA i ∧
        Nat.testBit (Adafruit_seesaw.disableSercomDataRdyInterrupt 0 0xAA 1).1
            i = Nat.testBit 0xAA i) ∧
      (Adafruit_seesaw.enableSercomDataRdyInterrupt 0 0xAA 1).2 =
        [BusEvent.write 0 [(SEESAW_SERCOM0_BASE + 1) % 256,
          SEESAW_SERCOM_INTEN % 256,
          (Adafruit_seesaw.enableSercomDataRdyInterrupt 0 0xAA 1).1 % 256]] ∧
      (Adafruit_seesaw.disableSercomDataRdyInterrupt 0 0xAA 1).2 =
        [BusEvent.write 0 [(SEESAW_SERCOM0_BASE + 1) % 256,
          SEESAW_SERCOM_INTEN % 256,
          (Adafruit_seesaw.disableSercomDataRdyInterrupt 0 0xAA 1).1 % 256]] :=
  c9_sercom_inten_frame 0 0xAA 1 (by norm_num)
